import Mathlib

/-!
Verification of the amplifier-app-session-analyzer core against its source.

The Python source is shallowly embedded: timestamps (`datetime` values and
their `.timestamp()` floats) are modelled as microseconds since the epoch
(`Int`), JSON records as an inductive `JValue`, Python dictionaries as
association lists, Python sets of session ids as `Finset String`, and code
that can raise an uncaught exception returns `Except PyExc`.
-/

set_option maxRecDepth 20000

/-- Uncaught Python exception kinds relevant to the embedded code paths. -/
inductive PyExc
  | json_decode_error
  | value_error
  | attribute_error
  | type_error
  deriving DecidableEq, Repr

instance {ε α : Type} [DecidableEq ε] [DecidableEq α] :
    DecidableEq (Except ε α) := fun x y =>
  match x, y with
  | .error e, .error f =>
    decidable_of_iff (e = f) ⟨fun h => by rw [h], fun h => Except.error.inj h⟩
  | .ok a, .ok b =>
    decidable_of_iff (a = b) ⟨fun h => by rw [h], fun h => Except.ok.inj h⟩
  | .error _, .ok _ => isFalse fun h => Except.noConfusion h
  | .ok _, .error _ => isFalse fun h => Except.noConfusion h

/-- A parsed JSON value, the result of a successful `json.loads`.
Numbers are restricted to integers, which is all the analyzed logs use. -/
inductive JValue
  | null
  | bool (b : Bool)
  | num (n : Int)
  | str (s : String)
  | arr (elems : List JValue)
  | obj (fields : List (String × JValue))
  deriving Repr

/-- Python truthiness test (`if not x`) for a JSON value:
`None`, `False`, `0`, `""`, `[]` and `{}` are falsy. -/
def pyFalsy : JValue → Bool
  | .null => true
  | .bool b => !b
  | .num n => n == 0
  | .str s => s == ""
  | .arr xs => xs.isEmpty
  | .obj kvs => kvs.isEmpty

/-- Python `==` between a JSON value and a string literal: only a `str`
value can compare equal to a `str`. -/
def pyEqStr (v : JValue) (t : String) : Bool :=
  match v with
  | .str s => s == t
  | _ => false

/-- Python `==` between a JSON value and an `int` literal: `bool` is an
`int` subclass (`True == 1`), every other non-numeric value compares unequal. -/
def pyEqInt (v : JValue) (t : Int) : Bool :=
  match v with
  | .num n => n == t
  | .bool b => (if b then (1 : Int) else 0) == t
  | _ => false

/-- `rec.get(key, default)` on a parsed JSON value: succeeds on an object
(first binding wins; `json.loads` output has unique keys), raises
`AttributeError` on any non-object, exactly as CPython does. -/
def jGetD (v : JValue) (key : String) (dflt : JValue) : Except PyExc JValue :=
  match v with
  | .obj kvs => .ok ((kvs.lookup key).getD dflt)
  | _ => .error .attribute_error

/- ## Time model (src/amplifier_app_session_analyzer/time_scope.py) -/

/-- Days from the civil epoch 1970-01-01 (standard civil-calendar algorithm);
models the calendar arithmetic of the Python `datetime` library. -/
def daysFromCivil (y : Int) (m d : Nat) : Int :=
  let y' : Int := if m <= 2 then y - 1 else y
  let era : Int := (if 0 ≤ y' then y' else y' - 399) / 400
  let yoe : Int := y' - era * 400
  let mp : Int := (Int.ofNat m + 9) % 12
  let doy : Int := (153 * mp + 2) / 5 + Int.ofNat d - 1
  let doe : Int := yoe * 365 + yoe / 4 - yoe / 100 + doy
  era * 146097 + doe - 719468

/-- Number of days in a month of the proleptic Gregorian calendar. -/
def daysInMonth (y : Int) (m : Nat) : Nat :=
  if m = 2 then
    if y % 4 = 0 ∧ (y % 100 ≠ 0 ∨ y % 400 = 0) then 29 else 28
  else if m = 4 ∨ m = 6 ∨ m = 9 ∨ m = 11 then 30
  else 31

/-- Validity of a `YYYY/MM/DD` token as checked by `datetime.strptime`. -/
def isValidDate (y : Int) (m d : Nat) : Prop :=
  1 ≤ m ∧ m ≤ 12 ∧ 1 ≤ d ∧ d ≤ daysInMonth y m

instance (y : Int) (m d : Nat) : Decidable (isValidDate y m d) := by
  unfold isValidDate; infer_instance

/-- Microseconds in one day. -/
def usPerDay : Int := 86400000000

/-- The instant (µs since epoch, as a UTC wall clock) of local midnight of a
civil date. -/
def localMidnightUs (y : Int) (m d : Nat) : Int :=
  daysFromCivil y m d * usPerDay

/-- A fixed-offset model of an IANA timezone: the offset (in µs) that
`astimezone` subtracts from a local wall-clock reading to obtain UTC.
DST is irrelevant to the verified properties, which hold for every offset. -/
structure Tz where
  offset_us : Int
  deriving DecidableEq, Repr

/-- `TimeScope` (time_scope.py): a UTC interval plus the display timezone. -/
structure TimeScope where
  start_utc : Int
  end_utc : Int
  timezone : String
  deriving DecidableEq, Repr

/-- `TimeScope.contains`: inclusive range test.  In the instant model a naive
timestamp is already UTC, so the `replace(tzinfo=UTC)` step is the identity. -/
def TimeScope.containsB (sc : TimeScope) (ts : Int) : Bool :=
  decide (sc.start_utc ≤ ts) && decide (ts ≤ sc.end_utc)

/-- The single-day branch of `parse_time_scope` (`"YYYY/MM/DD"`):
local `00:00:00.000001` through `23:59:59.999999`, converted to UTC.
`strptime` rejects an invalid date with `ValueError`, modelled as `none`. -/
def parse_time_scope_single_day (y : Int) (m d : Nat) (tz : Tz)
    (tzname : String) : Option TimeScope :=
  if isValidDate y m d then
    some { start_utc := localMidnightUs y m d + 1 - tz.offset_us
           end_utc := localMidnightUs y m d + (usPerDay - 1) - tz.offset_us
           timezone := tzname }
  else none

/- ## Parser data model (src/amplifier_app_session_analyzer/parser.py) -/

/-- `AutonomyPeriod`: `start`/`end` timestamps and owning session.  The Python
field `end` is called `stop` here because `end` is a Lean keyword. -/
structure AutonomyPeriod where
  start : Int
  stop : Int
  session_id : String
  deriving DecidableEq, Repr

/-- `OverlapMetrics` (metrics.py). -/
structure OverlapMetrics where
  overlap_count : Nat
  max_parallel_sessions : Nat
  deriving DecidableEq, Repr

/- ## Overlap sweep (src/amplifier_app_session_analyzer/metrics.py) -/

/-- One sweep event `(timestamp, event_type, session_id)`; `kind` is the
literal Python string `"start"` or `"end"`. -/
structure SweepEvent where
  ts : Int
  kind : String
  session_id : String
  deriving DecidableEq, Repr

/-- Sort-key rank: `0 if e[1] == "end" else 1`. -/
def SweepEvent.rank (e : SweepEvent) : Int :=
  if e.kind = "end" then 0 else 1

/-- The boolean sort comparison `key=lambda e: (e[0], 0 if e[1]=="end" else 1)`:
lexicographic on (timestamp, rank). -/
def evLEb (a b : SweepEvent) : Bool :=
  decide (a.ts < b.ts) || (decide (a.ts = b.ts) && decide (a.rank ≤ b.rank))

/-- The sort comparison as a relation, for `List.insertionSort`. -/
def evLE (a b : SweepEvent) : Prop := evLEb a b = true

instance : DecidableRel evLE := fun _ _ => instDecidableEqBool _ _

instance : IsTotal SweepEvent evLE := by
  constructor
  intro a b
  simp only [evLE, evLEb, Bool.or_eq_true, Bool.and_eq_true, decide_eq_true_eq]
  omega

instance : IsTrans SweepEvent evLE := by
  constructor
  intro a b c
  simp only [evLE, evLEb, Bool.or_eq_true, Bool.and_eq_true, decide_eq_true_eq]
  omega

/-- The two events generated for one period, start first. -/
def eventsOfPeriod (p : AutonomyPeriod) : List SweepEvent :=
  [⟨p.start, "start", p.session_id⟩, ⟨p.stop, "end", p.session_id⟩]

/-- The `events` list built by `calculate_overlap_metrics`, in input order. -/
def eventsOf (periods : List AutonomyPeriod) : List SweepEvent :=
  periods.flatMap eventsOfPeriod

/-- The sweep loop over sorted events: `active_sessions` is the Python set,
`oc` the running `overlap_count`, `mp` the running `max_parallel`.
Python's `if other_active:` is the non-emptiness (`len > 0`) test. -/
def sweep : List SweepEvent → Finset String → Nat → Nat → Nat × Nat
  | [], _, oc, mp => (oc, mp)
  | e :: rest, active, oc, mp =>
    if e.kind = "start" then
      let oc' := if (active.erase e.session_id).card ≠ 0 then oc + 1 else oc
      let active' := insert e.session_id active
      sweep rest active' oc' (max mp active'.card)
    else
      sweep rest (active.erase e.session_id) oc mp

/-- `calculate_overlap_metrics` (metrics.py): build events, sort them with the
stable sort (ends before starts at equal timestamps), sweep. -/
def calculate_overlap_metrics (periods : List AutonomyPeriod) : OverlapMetrics :=
  if periods.isEmpty then ⟨0, 0⟩
  else
    let sorted := List.insertionSort evLE (eventsOf periods)
    let ocmp := sweep sorted ∅ 0 0
    ⟨ocmp.1, ocmp.2⟩

/- ## ISO-8601 timestamps (`parse_iso_timestamp`, time_scope.py) -/

/-- Interpret a non-empty all-digit character run as a natural number. -/
def digitsToNat? (cs : List Char) : Option Nat :=
  if cs ≠ [] ∧ cs.all Char.isDigit then
    some (cs.foldl (fun a c => a * 10 + (c.toNat - 48)) 0)
  else none

/-- Trailing UTC-offset suffix of an ISO timestamp: empty (naive, treated as
UTC by `TimeScope.contains`), `Z`, or `±HH:MM`.  Returns the offset in µs. -/
def parseIsoOffset : List Char → Option Int
  | [] => some 0
  | ['Z'] => some 0
  | ['+', a, b, ':', c, e] => do
    let hh ← digitsToNat? [a, b]
    let mm ← digitsToNat? [c, e]
    if hh ≤ 23 ∧ mm ≤ 59 then some ((hh * 3600 + mm * 60 : Nat) * 1000000) else none
  | ['-', a, b, ':', c, e] => do
    let hh ← digitsToNat? [a, b]
    let mm ← digitsToNat? [c, e]
    if hh ≤ 23 ∧ mm ≤ 59 then some (-((hh * 3600 + mm * 60 : Nat) * 1000000 : Int))
    else none
  | _ => none

/-- Optional fractional-second part followed by the offset suffix; returns
(fraction in µs, offset in µs). -/
def parseIsoFracOffset : List Char → Option (Int × Int)
  | '.' :: rest =>
    let digs := rest.takeWhile Char.isDigit
    if 1 ≤ digs.length ∧ digs.length ≤ 6 then do
      let f ← digitsToNat? digs
      let off ← parseIsoOffset (rest.drop digs.length)
      some ((f * 10 ^ (6 - digs.length) : Nat), off)
    else none
  | rest => do
    let off ← parseIsoOffset rest
    some (0, off)

/-- Models the Python stdlib `datetime.fromisoformat` as used by
`parse_iso_timestamp`: accepts `YYYY-MM-DD`, optionally `THH:MM:SS`,
optionally `.f` to `.ffffff`, optionally an offset suffix, and yields the
instant in µs since the epoch; `none` models a `ValueError`. -/
def fromIso (s : String) : Option Int :=
  match s.toList with
  | y1 :: y2 :: y3 :: y4 :: '-' :: m1 :: m2 :: '-' :: d1 :: d2 :: rest => do
    let y ← digitsToNat? [y1, y2, y3, y4]
    let m ← digitsToNat? [m1, m2]
    let d ← digitsToNat? [d1, d2]
    if 1 ≤ m ∧ m ≤ 12 ∧ 1 ≤ d ∧ d ≤ daysInMonth (Int.ofNat y) m then
      let base := localMidnightUs (Int.ofNat y) m d
      match rest with
      | [] => some base
      | 'T' :: h1 :: h2 :: ':' :: n1 :: n2 :: ':' :: s1 :: s2 :: rest2 => do
        let hh ← digitsToNat? [h1, h2]
        let nn ← digitsToNat? [n1, n2]
        let ss ← digitsToNat? [s1, s2]
        if hh ≤ 23 ∧ nn ≤ 59 ∧ ss ≤ 59 then do
          let fo ← parseIsoFracOffset rest2
          some (base + (hh * 3600 + nn * 60 + ss : Nat) * 1000000 + fo.1 - fo.2)
        else none
      | _ => none
    else none
  | _ => none

/- ## Session event parsing (src/amplifier_app_session_analyzer/parser.py) -/

/-- One line of `events.jsonl`: either text that `json.loads` rejects
(`JSONDecodeError`), or the JSON value it yields. -/
inductive LogLine
  | invalid
  | val (v : JValue)

/-- `SessionInfo` (parser.py); the filesystem `session_path` field carries no
verified behavior and is omitted. -/
structure SessionInfo where
  session_id : String
  autonomy_periods : List AutonomyPeriod
  total_prompts_in_scope : Nat
  deriving DecidableEq, Repr

/-- One iteration of the record loop of `parse_session_events`, threading the
`(submits, completes)` accumulators.  The `try` block catches only
`JSONDecodeError` and `ValueError`: `rec.get` on a non-object JSON value
raises an uncaught `AttributeError`, and `datetime.fromisoformat` applied to
a truthy non-string `ts` raises an uncaught `TypeError`. -/
def lineStep (acc : List Int × List Int) (line : LogLine) :
    Except PyExc (List Int × List Int) :=
  match line with
  | .invalid => .ok acc
  | .val v =>
    match v with
    | .obj kvs =>
      let event := (kvs.lookup "event").getD .null
      let ts_str := (kvs.lookup "ts").getD .null
      if pyFalsy ts_str then .ok acc
      else
        match ts_str with
        | .str s =>
          match fromIso s with
          | none => .ok acc
          | some t =>
            if pyEqStr event "prompt:submit" then .ok (acc.1 ++ [t], acc.2)
            else if pyEqStr event "prompt:complete" then .ok (acc.1, acc.2 ++ [t])
            else .ok acc
        | _ => .error .type_error
    | _ => .error .attribute_error

/-- The two ordered timestamp sequences collected by the record loop. -/
def submitsCompletes (lines : List LogLine) :
    Except PyExc (List Int × List Int) :=
  lines.foldlM lineStep ([], [])

/-- The pairing loop `for i in range(min(len(submits), len(completes)))`:
simultaneous positional traversal of the two sequences, keeping a period iff
its submit timestamp is in scope. -/
def pairLoop (sid : String) (scope : TimeScope) :
    List Int → List Int → List AutonomyPeriod
  | s :: ss, c :: cc =>
    (if scope.containsB s then [⟨s, c, sid⟩] else []) ++ pairLoop sid scope ss cc
  | _, _ => []

/-- `parse_session_events` (parser.py), over the already-read lines of
`events.jsonl`. -/
def parse_session_events (sid : String) (lines : List LogLine)
    (scope : TimeScope) : Except PyExc SessionInfo :=
  match submitsCompletes lines with
  | .error e => .error e
  | .ok sc =>
    .ok { session_id := sid
          autonomy_periods := pairLoop sid scope sc.1 sc.2
          total_prompts_in_scope := (sc.1.filter scope.containsB).length }

/- ## Prompt extraction (src/amplifier_app_session_analyzer/semantic.py) -/

/-- `ExtractedPrompt` (semantic.py).  `prompt_text` is kept as a JSON value
because CPython stores whatever truthy value `data.get("prompt", "")`
returned, with no type check. -/
structure ExtractedPrompt where
  prompt_text : JValue
  timestamp : Int
  session_id : String
  index_in_session : Nat
  deriving Repr

/-- One iteration of the record loop of `extract_prompts_from_session`; the
same `except (json.JSONDecodeError, ValueError)` clause as the parser, so a
non-object record or a truthy non-string `ts` raises, and so does
`data.get("prompt", "")` when the nested `data` field is a non-object. -/
def extractStep (sid : String) (scope : TimeScope)
    (ps : List ExtractedPrompt) (line : LogLine) :
    Except PyExc (List ExtractedPrompt) :=
  match line with
  | .invalid => .ok ps
  | .val v =>
    match v with
    | .obj kvs =>
      let event := (kvs.lookup "event").getD .null
      let ts_str := (kvs.lookup "ts").getD .null
      if !pyEqStr event "prompt:submit" || pyFalsy ts_str then .ok ps
      else
        match ts_str with
        | .str s =>
          match fromIso s with
          | none => .ok ps
          | some t =>
            if !scope.containsB t then .ok ps
            else
              let data := (kvs.lookup "data").getD (.obj [])
              match data with
              | .obj dkvs =>
                let ptext := (dkvs.lookup "prompt").getD (.str "")
                if pyFalsy ptext then .ok ps
                else .ok (ps ++ [⟨ptext, t, sid, ps.length⟩])
              | _ => .error .attribute_error
        | _ => .error .type_error
    | _ => .error .attribute_error

/-- `extract_prompts_from_session` (semantic.py), over the already-read lines. -/
def extract_prompts_from_session (sid : String) (lines : List LogLine)
    (scope : TimeScope) : Except PyExc (List ExtractedPrompt) :=
  lines.foldlM (extractStep sid scope) []

/- ## Context windows (`add_context_to_prompts`, semantic.py) -/

/-- The timestamp comparison used by `session_prompts.sort(key=p.timestamp)`. -/
def tsLE (a b : ExtractedPrompt) : Prop := a.timestamp ≤ b.timestamp

instance : DecidableRel tsLE := fun a b => Int.decLe a.timestamp b.timestamp

instance : IsTotal ExtractedPrompt tsLE := by
  constructor; intro a b; unfold tsLE; omega

instance : IsTrans ExtractedPrompt tsLE := by
  constructor; intro a b c; unfold tsLE; omega

/-- The session's prompt list as built by `add_context_to_prompts`: grouping
by session id preserves input order, then an in-place stable sort by
timestamp; equivalently, filter then stable-sort. -/
def sessionList (prompts : List ExtractedPrompt) (sid : String) :
    List ExtractedPrompt :=
  List.insertionSort tsLE (prompts.filter (fun p => p.session_id = sid))

/-- `add_context_to_prompts` (semantic.py): for each prompt of the input, in
input order, locate `idx` as the FIRST position in its session's sorted list
whose timestamp equals the prompt's (`next(i for i, p in ... if p.timestamp
== prompt.timestamp)`), then slice up to `w` texts on each side. -/
def add_context_to_prompts (prompts : List ExtractedPrompt) (w : Nat) :
    List (ExtractedPrompt × List JValue × List JValue) :=
  prompts.map fun prompt =>
    let sp := sessionList prompts prompt.session_id
    let idx := sp.findIdx (fun p => p.timestamp == prompt.timestamp)
    let before := ((sp.take idx).drop (idx - w)).map (·.prompt_text)
    let after := ((sp.drop (idx + 1)).take w).map (·.prompt_text)
    (prompt, before, after)

/- ## Batch classifier (src/amplifier_app_session_analyzer/classifier.py) -/

/-- The `PromptCategory` enum values (semantic.py); `PromptCategory(x)`
succeeds exactly when `x` is in this list. -/
def PROMPT_CATEGORY_VALUES : List String :=
  ["question", "implementation", "debugging", "clarification", "review",
   "refactoring", "exploration", "testing", "directive", "feedback", "other"]

/-- `SEMANTIC_BATCH_SIZE` (constants.py). -/
def SEMANTIC_BATCH_SIZE : Nat := 20

/-- `ClassifiedPrompt` (semantic.py).  `wildcard_category` is whatever value
the validation returned (`JValue.null` models Python `None`). -/
structure ClassifiedPrompt where
  prompt_text : JValue
  timestamp : Int
  session_id : String
  categories : List String
  context_before : List JValue
  context_after : List JValue
  wildcard_category : JValue
  deriving Repr

/-- The collaborator's raw response after `_parse_batch_response`'s fence /
bracket extraction (pure text munging on the wire format): either no
substring parses as JSON (`json.loads` raises), or it yields `v`. -/
inductive RawResponse
  | unparseable
  | jsonVal (v : JValue)

/-- The fallback entry `{"index": i+1, "categories": ["other"],
"custom_category": "parse_error"}` built on parse failure. -/
def parseErrorEntry (i : Nat) : JValue :=
  .obj [("index", .num (i + 1 : Nat)), ("categories", .arr [.str "other"]),
        ("custom_category", .str "parse_error")]

/-- `_parse_batch_response`: a JSON array is returned as-is; any other
outcome (no parse, or a non-list value failing `isinstance(results, list)`)
degrades to one parse-error entry per expected prompt. -/
def parse_batch_response (resp : RawResponse) (expected_count : Nat) :
    List JValue :=
  match resp with
  | .jsonVal (.arr xs) => xs
  | _ => (List.range expected_count).map parseErrorEntry

/-- `str.lower()` (ASCII model of CPython's casefolding; all taxonomy labels
are ASCII). -/
def strLower (s : String) : String := ⟨s.data.map Char.toLower⟩

/-- `str.strip()`: drop leading and trailing whitespace. -/
def strStrip (s : String) : String :=
  ⟨((s.data.dropWhile Char.isWhitespace).reverse.dropWhile
    Char.isWhitespace).reverse⟩

/-- `cat.lower().strip()`. -/
def normCat (s : String) : String := strStrip (strLower s)

/-- The iteration `for cat in categories[:3]`: Python slices lists and
strings (a string yields its first characters); slicing any other value
raises `TypeError`. -/
def catSeq : JValue → Except PyExc (List JValue)
  | .arr xs => .ok (xs.take 3)
  | .str s => .ok ((s.toList.take 3).map fun c => .str (String.mk [c]))
  | _ => .error .type_error

/-- The body of the `_validate_categories` loop.  `validated` accumulates
in-taxonomy labels; an out-of-taxonomy label appends `"other"` (once) and,
if `wildcard` is still falsy, retains the normalized label; `cat.lower()`
on a non-string entry raises an uncaught `AttributeError`. -/
def validateLoop :
    List JValue → List String → JValue → Except PyExc (List String × JValue)
  | [], validated, wildcard => .ok (validated, wildcard)
  | c :: rest, validated, wildcard =>
    match c with
    | .str s =>
      let cl := normCat s
      if cl ∈ PROMPT_CATEGORY_VALUES then
        validateLoop rest (validated ++ [cl]) wildcard
      else
        validateLoop rest
          (if "other" ∈ validated then validated else validated ++ ["other"])
          (if pyFalsy wildcard then .str cl else wildcard)
    | _ => .error .attribute_error

/-- `_validate_categories` (classifier.py): cap to 3 labels, normalize and
check each against the taxonomy, substitute `["other"]` for an empty result,
and null out the wildcard unless `"other"` made it into the result. -/
def validate_categories (categories custom_category : JValue) :
    Except PyExc (List String × JValue) :=
  match catSeq categories with
  | .error e => .error e
  | .ok cs =>
    match validateLoop cs [] custom_category with
    | .error e => .error e
    | .ok vw =>
      let validated := if vw.1 = [] then ["other"] else vw.1
      .ok (validated, if "other" ∈ validated then vw.2 else .null)

/-- The scan `for r in parsed_results: if r.get("index") == i + 1`: returns
the first entry whose `index` field equals the 1-based target, raising
`AttributeError` as soon as a non-object entry is inspected. -/
def findByIndex (parsed : List JValue) (target : Int) :
    Except PyExc (Option JValue) :=
  match parsed with
  | [] => .ok none
  | r :: rest =>
    match r with
    | .obj kvs =>
      if pyEqInt ((kvs.lookup "index").getD .null) target then .ok (some (.obj kvs))
      else findByIndex rest target
    | _ => .error .attribute_error

/-- The fallback entry used when the parsed array is shorter than the group. -/
def missingResultEntry : JValue :=
  .obj [("categories", .arr [.str "other"]),
        ("custom_category", .str "missing_result")]

/-- Resolution of `result_data` for member `i`: the entry matched by
explicit index if any, else the entry at the same array position, else the
missing-result fallback. -/
def pickResult (parsed : List JValue) (i : Nat) (found : Option JValue) :
    JValue :=
  match found with
  | some r => r
  | none => if h : i < parsed.length then parsed[i] else missingResultEntry

/-- The per-member loop of `_classify_batch_group`, at 0-based position `i`:
match by explicit index, fall back to the same array position, then to the
missing-result entry; extract and validate the labels; build the
`ClassifiedPrompt` carrying the member's own prompt and context. -/
def classifyGroupLoop (parsed : List JValue) :
    Nat → List (ExtractedPrompt × List JValue × List JValue) →
    Except PyExc (List ClassifiedPrompt)
  | _, [] => .ok []
  | i, (p, ctx_before, ctx_after) :: rest =>
    match findByIndex parsed ((i : Int) + 1) with
    | .error e => .error e
    | .ok found =>
      let result_data := pickResult parsed i found
      match jGetD result_data "categories" (.arr [.str "other"]) with
      | .error e => .error e
      | .ok categories =>
        match jGetD result_data "custom_category" .null with
        | .error e => .error e
        | .ok custom =>
          match validate_categories categories custom with
          | .error e => .error e
          | .ok vw =>
            match classifyGroupLoop parsed (i + 1) rest with
            | .error e => .error e
            | .ok restResults =>
              .ok ({ prompt_text := p.prompt_text
                     timestamp := p.timestamp
                     session_id := p.session_id
                     categories := vw.1
                     context_before := ctx_before
                     context_after := ctx_after
                     wildcard_category := vw.2 } :: restResults)

/-- `_classify_batch_group` (classifier.py), given the collaborator's
response for this group: empty groups return immediately, otherwise the
response is parsed and each member classified in order. -/
def classifyBatchGroup (group : List (ExtractedPrompt × List JValue × List JValue))
    (resp : RawResponse) : Except PyExc (List ClassifiedPrompt) :=
  if group.isEmpty then .ok []
  else classifyGroupLoop (parse_batch_response resp group.length) 0 group

/-- Fuel-indexed worker for `chunksOf`; the fuel is the list length, enough
for any positive chunk size. -/
def chunksGo (k : Nat) : Nat → List α → List (List α)
  | _, [] => []
  | 0, _ :: _ => []
  | fuel + 1, x :: xs => ((x :: xs).take k) :: chunksGo k fuel ((x :: xs).drop k)

/-- The strided-slice comprehension
`[lst[i:i+batch_size] for i in range(0, total, batch_size)]`. -/
def chunksOf (k : Nat) (l : List α) : List (List α) :=
  chunksGo k l.length l

/-- The `(batch_index, results)` tasks created by `enumerate(batches)`,
starting at batch index `i`; `asyncio.gather` yields the task results in
task order, independent of completion order, and propagates the first
raised exception. -/
def gatherGo (resp : Nat → RawResponse) :
    Nat → List (List (ExtractedPrompt × List JValue × List JValue)) →
    Except PyExc (List (Nat × List ClassifiedPrompt))
  | _, [] => .ok []
  | i, b :: rest =>
    match classifyBatchGroup b (resp i) with
    | .error e => .error e
    | .ok r =>
      match gatherGo resp (i + 1) rest with
      | .error e => .error e
      | .ok rs => .ok ((i, r) :: rs)

/-- All `(batch_index, results)` pairs, as returned by `asyncio.gather`. -/
def gatherGroups (batches : List (List (ExtractedPrompt × List JValue × List JValue)))
    (resp : Nat → RawResponse) :
    Except PyExc (List (Nat × List ClassifiedPrompt)) :=
  gatherGo resp 0 batches

/-- The comparison for `indexed_results.sort(key=lambda x: x[0])`. -/
def idxLE (a b : Nat × List ClassifiedPrompt) : Prop := a.1 ≤ b.1

instance : DecidableRel idxLE := fun a b => Nat.decLe a.1 b.1

instance : IsTotal (Nat × List ClassifiedPrompt) idxLE := by
  constructor; intro a b; unfold idxLE; omega

instance : IsTrans (Nat × List ClassifiedPrompt) idxLE := by
  constructor; intro a b c; unfold idxLE; omega

/-- The merge step of `classify_batch`: stable sort by batch index, flatten. -/
def mergeResults (xs : List (Nat × List ClassifiedPrompt)) :
    List ClassifiedPrompt :=
  (List.insertionSort idxLE xs).flatMap (·.2)

/-- `classify_batch` (classifier.py): partition into fixed-size groups,
dispatch each with its batch index (`resp i` is the collaborator's response
to group `i`), and reassemble in index order. -/
def classify_batch (inputs : List (ExtractedPrompt × List JValue × List JValue))
    (resp : Nat → RawResponse) : Except PyExc (List ClassifiedPrompt) :=
  if inputs.length = 0 then .ok []
  else
    match gatherGroups (chunksOf SEMANTIC_BATCH_SIZE inputs) resp with
    | .error e => .error e
    | .ok xs => .ok (mergeResults xs)

/-- Test for a response label that is literally the catch-all `"other"`
after normalization (used to state the duplicate-`"other"` bound). -/
def isLiteralOther (c : JValue) : Bool :=
  match c with
  | .str s => normCat s == "other"
  | _ => false

/-- The sort key of a sweep event, as a pair. -/
def evKey (e : SweepEvent) : Int × Int := (e.ts, e.rank)

/-- No two events of "start" rank (kind other than `"end"`) share a
timestamp.  This is what pairwise-distinct period start timestamps give the
sweep, and all the sweep needs for order-independence: events tied on a sort
key are then all `"end"` events, whose set-removals commute and never read
or update the counters. -/
def startsNodup (l : List SweepEvent) : Prop :=
  l.Pairwise fun a b => a.kind ≠ "end" → b.kind ≠ "end" → a.ts ≠ b.ts

/-- The "structurally unparseable as an array" condition on a collaborator
response: no JSON parse at all, or a parsed value that fails
`isinstance(results, list)`. -/
def respUnparseableAsArray : RawResponse → Bool
  | .unparseable => true
  | .jsonVal (.arr _) => false
  | .jsonVal _ => true

/-- The per-prompt fields a classification must carry over from its input
tuple: the prompt's own text, timestamp, session and the two context lists. -/
def fieldsMatch (cp : ClassifiedPrompt)
    (t : ExtractedPrompt × List JValue × List JValue) : Prop :=
  cp.prompt_text = t.1.prompt_text ∧ cp.timestamp = t.1.timestamp
    ∧ cp.session_id = t.1.session_id ∧ cp.context_before = t.2.1
    ∧ cp.context_after = t.2.2

/-- The claim-side context computation: a prompt's own position in its
session's timestamp-sorted sequence is the number of same-session prompts
with strictly earlier timestamps (well-defined when in-session timestamps
are distinct); the contexts are the up-to-`w` texts on each side of that
position. -/
def contextSpec (prompts : List ExtractedPrompt) (w : Nat)
    (prompt : ExtractedPrompt) :
    ExtractedPrompt × List JValue × List JValue :=
  let sp := sessionList prompts prompt.session_id
  let j := sp.countP fun p => decide (p.timestamp < prompt.timestamp)
  (prompt, ((sp.take j).drop (j - w)).map (·.prompt_text),
   ((sp.drop (j + 1)).take w).map (·.prompt_text))

/- ## Generic sorting helper -/

/-- Two sorted permutations of one another whose keys are duplicate-free are
equal; hence any stable sort by a duplicate-free key is order-canonical. -/
theorem eq_of_perm_of_sorted_of_nodup_keys {α κ : Type} (key : α → κ)
    (r : α → α → Prop) (hanti : ∀ a b, r a b → r b a → key a = key b) :
    ∀ l₁ l₂ : List α, l₁.Perm l₂ → l₁.Sorted r → l₂.Sorted r →
      (l₁.map key).Nodup → l₁ = l₂ := by
  intro l₁
  induction l₁ with
  | nil =>
    intro l₂ hp _ _ _
    exact (hp.symm.eq_nil).symm
  | cons a t₁ ih =>
    intro l₂ hp hs₁ hs₂ hnd
    cases l₂ with
    | nil => exact absurd hp.eq_nil (by simp)
    | cons b t₂ =>
      by_cases hab : a = b
      · subst hab
        rw [ih t₂ hp.cons_inv hs₁.of_cons hs₂.of_cons
          (by simpa using (List.nodup_cons.mp (by simpa using hnd)).2)]
      · exfalso
        have hbt₁ : b ∈ t₁ := by
          rcases List.mem_cons.mp (hp.mem_iff.mpr (List.mem_cons_self b t₂)) with h | h
          · exact absurd h.symm hab
          · exact h
        have hat₂ : a ∈ t₂ := by
          rcases List.mem_cons.mp (hp.mem_iff.mp (List.mem_cons_self a t₁)) with h | h
          · exact absurd h hab
          · exact h
        have hk : key a = key b :=
          hanti a b (List.rel_of_sorted_cons hs₁ b hbt₁)
            (List.rel_of_sorted_cons hs₂ a hat₂)
        have hka : key a ∉ t₁.map key := (List.nodup_cons.mp (by simpa using hnd)).1
        exact hka (hk ▸ List.mem_map_of_mem key hbt₁)

/- ## Overlap metrics: permutation behavior (claims C1, C10) -/

theorem evLE_antisymm_key (a b : SweepEvent) :
    evLE a b → evLE b a → evKey a = evKey b := by
  simp only [evLE, evLEb, evKey, Bool.or_eq_true, Bool.and_eq_true,
    decide_eq_true_eq]
  intro h1 h2
  have hts : a.ts = b.ts := by omega
  have hrk : a.rank = b.rank := by omega
  rw [hts, hrk]

theorem eventsOf_perm {l₁ l₂ : List AutonomyPeriod} (h : l₁.Perm l₂) :
    (eventsOf l₁).Perm (eventsOf l₂) :=
  h.flatMap_right eventsOfPeriod

/-- The sort comparison transfers along key equality. -/
theorem evLE_congr_left {a b c : SweepEvent} (h : evKey a = evKey b)
    (hbc : evLE b c) : evLE a c := by
  have hts : a.ts = b.ts := congrArg Prod.fst h
  have hrk : a.rank = b.rank := congrArg Prod.snd h
  simp only [evLE, evLEb, Bool.or_eq_true, Bool.and_eq_true,
    decide_eq_true_eq] at hbc ⊢
  omega

/-- Two events tied on the full sort key are both `"end"` events whenever no
two non-`"end"` events share a timestamp. -/
theorem kind_end_of_key_eq {a b : SweepEvent} (hk : evKey a = evKey b)
    (hR : a.kind ≠ "end" → b.kind ≠ "end" → a.ts ≠ b.ts) :
    a.kind = "end" ∧ b.kind = "end" := by
  have hts : a.ts = b.ts := congrArg Prod.fst hk
  have hrk : a.rank = b.rank := congrArg Prod.snd hk
  by_cases ha : a.kind = "end"
  · refine ⟨ha, ?_⟩
    by_contra hb
    have h1 : a.rank = 0 := by simp [SweepEvent.rank, ha]
    have h2 : b.rank = 1 := by simp [SweepEvent.rank, hb]
    omega
  · by_cases hb : b.kind = "end"
    · have h1 : a.rank = 1 := by simp [SweepEvent.rank, ha]
      have h2 : b.rank = 0 := by simp [SweepEvent.rank, hb]
      omega
    · exact absurd hts (hR ha hb)

/-- An `"end"` event only removes its session from the active set; the
counters are untouched. -/
theorem sweep_cons_end {e : SweepEvent} (he : e.kind = "end")
    (rest : List SweepEvent) (active : Finset String) (oc mp : Nat) :
    sweep (e :: rest) active oc mp
      = sweep rest (active.erase e.session_id) oc mp := by
  simp only [sweep]
  rw [if_neg (show ¬ e.kind = "start" by rw [he]; decide)]

theorem finset_erase_erase_comm (s : Finset String) (a b : String) :
    (s.erase a).erase b = (s.erase b).erase a := by
  ext x
  simp only [Finset.mem_erase]
  tauto

theorem startsNodup_symm : ∀ {a b : SweepEvent},
    (a.kind ≠ "end" → b.kind ≠ "end" → a.ts ≠ b.ts) →
    (b.kind ≠ "end" → a.kind ≠ "end" → b.ts ≠ a.ts) :=
  fun h hb ha => (h ha hb).symm

/-- Periods with pairwise-distinct start timestamps generate events in
which no two non-`"end"` (i.e. start) events share a timestamp. -/
theorem eventsOf_startsNodup {l : List AutonomyPeriod}
    (hstart : l.Pairwise fun p q => p.start ≠ q.start) :
    startsNodup (eventsOf l) := by
  induction l with
  | nil => exact List.Pairwise.nil
  | cons p rest ih =>
    have hs := List.pairwise_cons.mp hstart
    rw [show eventsOf (p :: rest) = eventsOfPeriod p ++ eventsOf rest
      from rfl]
    rw [startsNodup, List.pairwise_append]
    refine ⟨?_, ih hs.2, ?_⟩
    · refine List.Pairwise.cons ?_ (List.Pairwise.cons
        (fun y hy => absurd hy (List.not_mem_nil y)) List.Pairwise.nil)
      intro y hy
      rw [List.mem_singleton.mp hy]
      intro _ h2
      exact absurd rfl h2
    · intro x hx y hy
      obtain ⟨q, hq, hyq⟩ := List.mem_flatMap.mp hy
      simp only [eventsOfPeriod, List.mem_cons, List.not_mem_nil,
        or_false] at hx hyq
      intro hxk hyk
      rcases hx with h1 | h1
      · rcases hyq with h2 | h2
        · rw [h1, h2]
          exact hs.1 q hq
        · rw [h2] at hyk
          exact absurd rfl hyk
      · rw [h1] at hxk
        exact absurd rfl hxk

/-- Core invariance of the sweep: two sorted permutations of an event list
in which no two start events share a timestamp sweep to the same result
from every state.  Events tied on a sort key are then all `"end"` events
(kind rank breaks start/end ties), and `"end"` events only perform
commuting set-removals without reading or updating the counters. -/
theorem sweep_perm_sorted :
    ∀ (n : Nat) (l₁ l₂ : List SweepEvent), l₁.length ≤ n → l₁.Perm l₂ →
      l₁.Sorted evLE → l₂.Sorted evLE → startsNodup l₁ →
      ∀ (active : Finset String) (oc mp : Nat),
        sweep l₁ active oc mp = sweep l₂ active oc mp := by
  intro n
  induction n with
  | zero =>
    intro l₁ l₂ hlen hperm _ _ _ active oc mp
    rw [List.length_eq_zero.mp (Nat.le_zero.mp hlen)] at hperm ⊢
    rw [hperm.symm.eq_nil]
  | succ n ih =>
    intro l₁ l₂ hlen hperm hs₁ hs₂ hnd active oc mp
    cases l₁ with
    | nil => rw [hperm.symm.eq_nil]
    | cons a t₁ =>
      cases l₂ with
      | nil => exact absurd hperm.eq_nil (by simp)
      | cons b t₂ =>
        have hlen₁ : t₁.length ≤ n := by
          simp only [List.length_cons] at hlen
          omega
        by_cases hab : a = b
        · subst hab
          have hperm' := hperm.cons_inv
          have hnd' : startsNodup t₁ := (List.pairwise_cons.mp hnd).2
          simp only [sweep]
          by_cases hk : a.kind = "start"
          · rw [if_pos hk, if_pos hk]
            exact ih t₁ t₂ hlen₁ hperm' hs₁.of_cons hs₂.of_cons hnd' _ _ _
          · rw [if_neg hk, if_neg hk]
            exact ih t₁ t₂ hlen₁ hperm' hs₁.of_cons hs₂.of_cons hnd' _ _ _
        · have hbt₁ : b ∈ t₁ := by
            rcases List.mem_cons.mp (hperm.mem_iff.mpr
              (List.mem_cons_self b t₂)) with h | h
            · exact absurd h.symm hab
            · exact h
          have hat₂ : a ∈ t₂ := by
            rcases List.mem_cons.mp (hperm.mem_iff.mp
              (List.mem_cons_self a t₁)) with h | h
            · exact absurd h hab
            · exact h
          have hk : evKey a = evKey b :=
            evLE_antisymm_key a b (List.rel_of_sorted_cons hs₁ b hbt₁)
              (List.rel_of_sorted_cons hs₂ a hat₂)
          obtain ⟨hae, hbe⟩ :=
            kind_end_of_key_eq hk ((List.pairwise_cons.mp hnd).1 b hbt₁)
          have hperm₁ : t₁.Perm (b :: t₂.erase a) :=
            (hperm.trans (((List.perm_cons_erase hat₂).cons b).trans
              (List.Perm.swap a b (t₂.erase a)))).cons_inv
          have hs₂' : (t₂.erase a).Sorted evLE :=
            hs₂.of_cons.sublist (List.erase_sublist a t₂)
          have hbt₂' : ∀ x ∈ t₂.erase a, evLE b x := fun x hx =>
            List.rel_of_sorted_cons hs₂ x (List.mem_of_mem_erase hx)
          have hsbt₂' : (b :: t₂.erase a).Sorted evLE :=
            List.sorted_cons.mpr ⟨hbt₂', hs₂'⟩
          have hsat₂' : (a :: t₂.erase a).Sorted evLE :=
            List.sorted_cons.mpr
              ⟨fun x hx => evLE_congr_left hk (hbt₂' x hx), hs₂'⟩
          have hndt₁ : startsNodup t₁ := (List.pairwise_cons.mp hnd).2
          have hndt₂ : startsNodup t₂ :=
            (List.pairwise_cons.mp
              ((hperm.pairwise_iff startsNodup_symm).mp hnd)).2
          have hlent₂ : t₂.length ≤ n := by
            have hl := hperm.length_eq
            simp only [List.length_cons] at hl
            omega
          rw [sweep_cons_end hae, sweep_cons_end hbe]
          rw [ih t₁ (b :: t₂.erase a) hlen₁ hperm₁ hs₁.of_cons hsbt₂' hndt₁]
          rw [ih t₂ (a :: t₂.erase a) hlent₂ (List.perm_cons_erase hat₂)
            hs₂.of_cons hsat₂' hndt₂]
          rw [sweep_cons_end hbe, sweep_cons_end hae]
          rw [finset_erase_erase_comm]

/-- CLAIM C1 (amended): when no two periods share a start timestamp,
`calculate_overlap_metrics` is invariant under permutation of the input
list.  No restriction on end timestamps is needed: events tied on a sort
key are all `"end"` events (the kind rank orders ends before starts at an
equal instant, and distinct starts rule out tied start keys), and `"end"`
events only perform commuting set-removals that never read or update
`overlap_count` or `max_parallel`. -/
theorem calculate_overlap_metrics_perm_invariant
    (l₁ l₂ : List AutonomyPeriod) (hperm : l₁.Perm l₂)
    (hstart : l₁.Pairwise fun p q => p.start ≠ q.start) :
    calculate_overlap_metrics l₁ = calculate_overlap_metrics l₂ := by
  have hsweep :
      sweep (List.insertionSort evLE (eventsOf l₁)) ∅ 0 0
        = sweep (List.insertionSort evLE (eventsOf l₂)) ∅ 0 0 :=
    sweep_perm_sorted (List.insertionSort evLE (eventsOf l₁)).length _ _
      le_rfl
      ((List.perm_insertionSort _ _).trans
        ((eventsOf_perm hperm).trans (List.perm_insertionSort _ _).symm))
      (List.sorted_insertionSort _ _) (List.sorted_insertionSort _ _)
      (((List.perm_insertionSort evLE (eventsOf l₁)).pairwise_iff
        startsNodup_symm).mpr (eventsOf_startsNodup hstart)) ∅ 0 0
  have hempty : l₁.isEmpty = l₂.isEmpty := by
    have hlen := hperm.length_eq
    cases l₁ <;> cases l₂ <;> simp_all
  simp only [calculate_overlap_metrics, hempty, hsweep]

/-- CLAIM C1 (counterexample): permuting the input changes `overlap_count`
when two periods share a start timestamp: a second period of session A and a
period of session B both start at t=5 while A's first period is active. -/
theorem calculate_overlap_metrics_order_dependent_cex :
    ([(⟨0, 10, "A"⟩ : AutonomyPeriod), ⟨5, 6, "A"⟩, ⟨5, 7, "B"⟩]).Perm
      [⟨0, 10, "A"⟩, ⟨5, 7, "B"⟩, ⟨5, 6, "A"⟩]
    ∧ (calculate_overlap_metrics
        [⟨0, 10, "A"⟩, ⟨5, 6, "A"⟩, ⟨5, 7, "B"⟩]).overlap_count = 1
    ∧ (calculate_overlap_metrics
        [⟨0, 10, "A"⟩, ⟨5, 7, "B"⟩, ⟨5, 6, "A"⟩]).overlap_count = 2 :=
  ⟨by decide, by decide, by decide⟩

theorem calculate_overlap_metrics_perm_invariant_witness :
    ([(⟨0, 10, "A"⟩ : AutonomyPeriod), ⟨5, 7, "B"⟩]).Perm
      [⟨5, 7, "B"⟩, ⟨0, 10, "A"⟩]
    ∧ calculate_overlap_metrics [⟨0, 10, "A"⟩, ⟨5, 7, "B"⟩]
      = calculate_overlap_metrics [⟨5, 7, "B"⟩, ⟨0, 10, "A"⟩] :=
  ⟨by decide, calculate_overlap_metrics_perm_invariant _ _
    (by decide) (by decide)⟩

/-- The sweep's running maximum never exceeds the cardinality of any
superset of the active set that contains every event's session id. -/
theorem sweep_max_parallel_le (S : Finset String) :
    ∀ (evts : List SweepEvent) (active : Finset String) (oc mp : Nat),
      (∀ e ∈ evts, e.session_id ∈ S) → active ⊆ S → mp ≤ S.card →
      (sweep evts active oc mp).2 ≤ S.card := by
  intro evts
  induction evts with
  | nil =>
    intro active oc mp _ _ hmp
    simpa [sweep] using hmp
  | cons e rest ih =>
    intro active oc mp hmem hsub hmp
    have hsubIns : insert e.session_id active ⊆ S :=
      Finset.insert_subset (hmem e (List.mem_cons_self e rest)) hsub
    simp only [sweep]
    by_cases hk : e.kind = "start"
    · rw [if_pos hk]
      exact ih _ _ _ (fun x hx => hmem x (List.mem_cons_of_mem _ hx)) hsubIns
        (max_le hmp (Finset.card_le_card hsubIns))
    · rw [if_neg hk]
      exact ih _ _ _ (fun x hx => hmem x (List.mem_cons_of_mem _ hx))
        ((Finset.erase_subset _ _).trans hsub) hmp

/-- CLAIM C10: `max_parallel_sessions` never exceeds the number of distinct
session ids in the input, because the sweep tracks a set of session ids. -/
theorem max_parallel_le_distinct_sessions (l : List AutonomyPeriod) :
    (calculate_overlap_metrics l).max_parallel_sessions
      ≤ ((l.map (·.session_id)).toFinset).card := by
  unfold calculate_overlap_metrics
  by_cases h : l.isEmpty
  · rw [if_pos h]
    exact Nat.zero_le _
  · rw [if_neg h]
    apply sweep_max_parallel_le
    · intro e he
      obtain ⟨p, hp, hep⟩ :=
        List.mem_flatMap.mp ((List.mem_insertionSort evLE).mp he)
      have hsid : e.session_id = p.session_id := by
        simp only [eventsOfPeriod, List.mem_cons, List.not_mem_nil,
          or_false] at hep
        rcases hep with h1 | h1 <;> rw [h1]
      rw [hsid, List.mem_toFinset]
      exact List.mem_map_of_mem _ hp
    · exact Finset.empty_subset _
    · exact Nat.zero_le _

/- ## Time scope boundaries (claim C4) -/

/-- CLAIM C4 (amended): for every valid `YYYY/MM/DD` token and every
timezone offset, the single-day scope contains the instant of local
00:00:00.000001 and the instant of local 23:59:59.999999, but EXCLUDES the
instant of exact local midnight 00:00:00.000000 (and the next midnight):
`parse_time_scope` starts the day at microsecond 1, one microsecond AFTER
midnight, so an event logged at exact midnight is not included. -/
theorem time_scope_single_day_boundaries (y : Int) (m d : Nat) (tz : Tz)
    (nm : String) (sc : TimeScope)
    (h : parse_time_scope_single_day y m d tz nm = some sc) :
    sc.containsB (localMidnightUs y m d + 1 - tz.offset_us) = true
    ∧ sc.containsB (localMidnightUs y m d - tz.offset_us) = false
    ∧ sc.containsB (localMidnightUs y m d + (usPerDay - 1) - tz.offset_us) = true
    ∧ sc.containsB (localMidnightUs y m d + usPerDay - tz.offset_us) = false := by
  unfold parse_time_scope_single_day at h
  split at h
  · have hsc := Option.some.inj h
    rw [← hsc]
    refine ⟨?_, ?_, ?_, ?_⟩ <;>
      simp only [TimeScope.containsB, Bool.and_eq_true, decide_eq_true_eq,
        Bool.and_eq_false_iff, decide_eq_false_iff_not, usPerDay] <;> omega
  · exact absurd h (by simp)

theorem time_scope_single_day_boundaries_witness :
    parse_time_scope_single_day 2026 1 12 ⟨0⟩ "UTC"
      = some ⟨1768176000000001, 1768262399999999, "UTC"⟩
    ∧ (TimeScope.containsB ⟨1768176000000001, 1768262399999999, "UTC"⟩
        (localMidnightUs 2026 1 12 + 1 - (⟨0⟩ : Tz).offset_us) = true
      ∧ TimeScope.containsB ⟨1768176000000001, 1768262399999999, "UTC"⟩
        (localMidnightUs 2026 1 12 - (⟨0⟩ : Tz).offset_us) = false
      ∧ TimeScope.containsB ⟨1768176000000001, 1768262399999999, "UTC"⟩
        (localMidnightUs 2026 1 12 + (usPerDay - 1) - (⟨0⟩ : Tz).offset_us) = true
      ∧ TimeScope.containsB ⟨1768176000000001, 1768262399999999, "UTC"⟩
        (localMidnightUs 2026 1 12 + usPerDay - (⟨0⟩ : Tz).offset_us) = false) :=
  ⟨by decide,
   time_scope_single_day_boundaries 2026 1 12 ⟨0⟩ "UTC" _ (by decide)⟩

/-- CLAIM C4 (counterexample): for the date 2026/01/12 in a zero-offset
timezone, the instant of exact local midnight (1768176000000000 µs) is NOT
contained in the produced scope, falsifying the claim that an event logged
at exact midnight of the scoped day is included. -/
theorem time_scope_midnight_excluded_cex :
    parse_time_scope_single_day 2026 1 12 ⟨0⟩ "UTC"
      = some ⟨1768176000000001, 1768262399999999, "UTC"⟩
    ∧ localMidnightUs 2026 1 12 - (⟨0⟩ : Tz).offset_us = 1768176000000000
    ∧ TimeScope.containsB ⟨1768176000000001, 1768262399999999, "UTC"⟩
        1768176000000000 = false :=
  ⟨by decide, by decide, by decide⟩

/- ## Parser exception behavior (claim C5) -/

/-- CLAIM C5 (code bug): a log line holding the valid JSON value `3` (not an
object) makes both `parse_session_events` and
`extract_prompts_from_session` raise an uncaught `AttributeError`
(`rec.get` on a non-dict), and a record whose `ts` field is a truthy
non-string makes `parse_session_events` raise an uncaught `TypeError`
(`datetime.fromisoformat` on a non-str) — the `except` clause catches only
`JSONDecodeError` and `ValueError`, so such records are not skipped. -/
theorem parser_malformed_record_raises :
    parse_session_events "s" [.val (.num 3)] ⟨0, 1000000, "UTC"⟩
      = .error .attribute_error
    ∧ extract_prompts_from_session "s" [.val (.num 3)] ⟨0, 1000000, "UTC"⟩
      = .error .attribute_error
    ∧ parse_session_events "s"
        [.val (.obj [("event", .str "prompt:submit"), ("ts", .num 5)])]
        ⟨0, 1000000, "UTC"⟩ = .error .type_error :=
  ⟨rfl, rfl, rfl⟩

/- ## Positional pairing (claim C3) -/

/-- The index-based pairing loop is the zip of the two sequences filtered by
the in-scope test on the submit component. -/
theorem pairLoop_eq_zip (sid : String) (scope : TimeScope) :
    ∀ ss cc : List Int,
      pairLoop sid scope ss cc
        = ((ss.zip cc).filter (fun pr => scope.containsB pr.1)).map
            (fun pr => ⟨pr.1, pr.2, sid⟩) := by
  intro ss
  induction ss with
  | nil => intro cc; rfl
  | cons s ss ih =>
    intro cc
    cases cc with
    | nil => rfl
    | cons c cc =>
      simp only [pairLoop, List.zip_cons_cons, List.filter_cons]
      by_cases h : scope.containsB s = true
      · rw [if_pos h, if_pos (by exact h)]
        simp [ih cc]
      · rw [if_neg h, if_neg (by exact h)]
        simp [ih cc]

/-- Filtering the zip by a predicate on the first component keeps no more
elements than filtering the first list alone. -/
theorem filter_zip_length_le (p : Int → Bool) :
    ∀ ss cc : List Int,
      ((ss.zip cc).filter (fun pr => p pr.1)).length ≤ (ss.filter p).length := by
  intro ss
  induction ss with
  | nil => intro cc; simp
  | cons s ss ih =>
    intro cc
    cases cc with
    | nil => simp
    | cons c cc =>
      simp only [List.zip_cons_cons, List.filter_cons]
      by_cases h : p s = true
      · rw [if_pos (by exact h), if_pos h]
        exact Nat.succ_le_succ (ih cc)
      · rw [if_neg (by exact h), if_neg h]
        exact ih cc

/-- CLAIM C3: pairing is strictly positional — the emitted periods are
exactly the i-th submit paired with the i-th complete for the indices below
`min` whose submit is in scope; `total_prompts_in_scope` counts every
in-scope submit and is always at least the number of emitted periods. -/
theorem parse_session_events_positional (sid : String) (lines : List LogLine)
    (scope : TimeScope) (subs comps : List Int) (info : SessionInfo)
    (hsc : submitsCompletes lines = .ok (subs, comps))
    (h : parse_session_events sid lines scope = .ok info) :
    info.autonomy_periods
      = ((subs.zip comps).filter (fun pr => scope.containsB pr.1)).map
          (fun pr => ⟨pr.1, pr.2, sid⟩)
    ∧ info.total_prompts_in_scope = (subs.filter scope.containsB).length
    ∧ info.autonomy_periods.length ≤ info.total_prompts_in_scope := by
  unfold parse_session_events at h
  rw [hsc] at h
  have h' : (Except.ok
      { session_id := sid
        autonomy_periods := pairLoop sid scope subs comps
        total_prompts_in_scope := (subs.filter scope.containsB).length }
      : Except PyExc SessionInfo) = .ok info := h
  have hinfo := Except.ok.inj h'
  rw [← hinfo]
  refine ⟨pairLoop_eq_zip sid scope subs comps, rfl, ?_⟩
  rw [pairLoop_eq_zip sid scope subs comps, List.length_map]
  exact filter_zip_length_le scope.containsB subs comps

theorem parse_session_events_positional_witness :
    submitsCompletes
        [.val (.obj [("event", .str "prompt:submit"), ("ts", .str "2026-01-01")]),
         .val (.obj [("event", .str "prompt:complete"), ("ts", .str "2026-01-02")]),
         .val (.obj [("event", .str "prompt:submit"), ("ts", .str "2026-01-03")]),
         .val (.obj [("event", .str "prompt:submit"), ("ts", .str "2026-01-04")]),
         .val (.obj [("event", .str "prompt:complete"), ("ts", .str "2026-01-05")])]
      = .ok ([1767225600000000, 1767398400000000, 1767484800000000],
             [1767312000000000, 1767571200000000])
    ∧ parse_session_events "s"
        [.val (.obj [("event", .str "prompt:submit"), ("ts", .str "2026-01-01")]),
         .val (.obj [("event", .str "prompt:complete"), ("ts", .str "2026-01-02")]),
         .val (.obj [("event", .str "prompt:submit"), ("ts", .str "2026-01-03")]),
         .val (.obj [("event", .str "prompt:submit"), ("ts", .str "2026-01-04")]),
         .val (.obj [("event", .str "prompt:complete"), ("ts", .str "2026-01-05")])]
        ⟨0, 2000000000000000, "UTC"⟩
      = .ok ⟨"s", [⟨1767225600000000, 1767312000000000, "s"⟩,
                   ⟨1767398400000000, 1767571200000000, "s"⟩], 3⟩
    ∧ ([(⟨1767225600000000, 1767312000000000, "s"⟩ : AutonomyPeriod),
        ⟨1767398400000000, 1767571200000000, "s"⟩]).length ≤ 3 :=
  ⟨by decide, by decide,
   by
    have := (parse_session_events_positional "s"
      [.val (.obj [("event", .str "prompt:submit"), ("ts", .str "2026-01-01")]),
       .val (.obj [("event", .str "prompt:complete"), ("ts", .str "2026-01-02")]),
       .val (.obj [("event", .str "prompt:submit"), ("ts", .str "2026-01-03")]),
       .val (.obj [("event", .str "prompt:submit"), ("ts", .str "2026-01-04")]),
       .val (.obj [("event", .str "prompt:complete"), ("ts", .str "2026-01-05")])]
      ⟨0, 2000000000000000, "UTC"⟩
      [1767225600000000, 1767398400000000, 1767484800000000]
      [1767312000000000, 1767571200000000]
      ⟨"s", [⟨1767225600000000, 1767312000000000, "s"⟩,
             ⟨1767398400000000, 1767571200000000, "s"⟩], 3⟩
      (by decide) (by decide)).2.2
    exact this⟩

/- ## Label validation (claims C7, C8) -/

/-- On a list of (genuine) string labels the validation loop never raises,
and appends at most one category per input label. -/
theorem validateLoop_str_ok :
    ∀ (ss : List String) (validated : List String) (wildcard : JValue),
      ∃ v w, validateLoop (ss.map .str) validated wildcard = .ok (v, w)
        ∧ v.length ≤ validated.length + ss.length := by
  intro ss
  induction ss with
  | nil =>
    intro validated wildcard
    exact ⟨validated, wildcard, rfl, by simp⟩
  | cons s ss ih =>
    intro validated wildcard
    simp only [List.map_cons, validateLoop]
    by_cases h : normCat s ∈ PROMPT_CATEGORY_VALUES
    · rw [if_pos h]
      obtain ⟨v, w, heq, hlen⟩ := ih (validated ++ [normCat s]) wildcard
      refine ⟨v, w, heq, ?_⟩
      simp only [List.length_append, List.length_cons, List.length_nil]
        at hlen ⊢
      omega
    · rw [if_neg h]
      obtain ⟨v, w, heq, hlen⟩ :=
        ih (if "other" ∈ validated then validated else validated ++ ["other"])
          (if pyFalsy wildcard then .str (normCat s) else wildcard)
      refine ⟨v, w, heq, ?_⟩
      by_cases hm : "other" ∈ validated
      · rw [if_pos hm] at hlen
        simp only [List.length_cons] at hlen ⊢
        omega
      · rw [if_neg hm] at hlen
        simp only [List.length_append, List.length_cons, List.length_nil]
          at hlen ⊢
        omega

/-- CLAIM C7: for every label list and optional free-text label,
`_validate_categories` returns a non-empty list of at most 3 categories,
and a non-null free-text label only when the catch-all `"other"` is among
the returned categories. -/
theorem validate_categories_bounds (cats : List String)
    (custom : Option String) :
    ∃ v w, validate_categories (.arr (cats.map .str)) (custom.elim .null .str)
        = .ok (v, w)
      ∧ v ≠ [] ∧ v.length ≤ 3 ∧ (w ≠ .null → "other" ∈ v) := by
  obtain ⟨v0, w0, heq, hlen⟩ :=
    validateLoop_str_ok (cats.take 3) [] (custom.elim .null .str)
  have hcs : catSeq (.arr (cats.map .str)) = .ok ((cats.take 3).map .str) := by
    simp [catSeq, List.map_take]
  refine ⟨if v0 = [] then ["other"] else v0,
    if "other" ∈ (if v0 = [] then ["other"] else v0) then w0 else .null,
    ?_, ?_, ?_, ?_⟩
  · simp only [validate_categories, hcs, heq]
  · by_cases h0 : v0 = [] <;> simp [h0]
  · by_cases h0 : v0 = []
    · simp [h0]
    · rw [if_neg h0]
      have htake : (cats.take 3).length ≤ 3 := by
        rw [List.length_take]
        omega
      simp only [List.length_nil] at hlen
      omega
  · intro hw
    by_cases hm : "other" ∈ (if v0 = [] then ["other"] else v0)
    · exact hm
    · rw [if_neg hm] at hw
      exact absurd rfl hw

/-- Occurrences of `"other"` in the validation loop's output: each literal
`"other"` label is appended verbatim (the dedup guard only covers the
out-of-taxonomy branch, which appends `"other"` at most once in total). -/
theorem validateLoop_other_count :
    ∀ (cs : List JValue) (validated : List String) (wildcard : JValue)
      (v : List String) (w : JValue),
      validateLoop cs validated wildcard = .ok (v, w) →
      v.count "other" ≤ validated.count "other" + cs.countP isLiteralOther
        + (if "other" ∈ validated then 0 else 1) := by
  intro cs
  induction cs with
  | nil =>
    intro validated wildcard v w h
    simp only [validateLoop, Except.ok.injEq, Prod.mk.injEq] at h
    rw [← h.1]
    simp
  | cons c rest ih =>
    intro validated wildcard v w h
    cases c with
    | str s =>
      simp only [validateLoop] at h
      by_cases hvalid : normCat s ∈ PROMPT_CATEGORY_VALUES
      · rw [if_pos hvalid] at h
        have hrec := ih _ _ _ _ h
        have hcount : (validated ++ [normCat s]).count "other"
            = validated.count "other"
              + (if normCat s = "other" then 1 else 0) := by
          simp [List.count_append, List.count_cons, beq_iff_eq]
        have hlit : rest.countP isLiteralOther
              + (if normCat s = "other" then 1 else 0)
            = (JValue.str s :: rest).countP isLiteralOther := by
          simp [List.countP_cons, isLiteralOther, beq_iff_eq]
        by_cases ho : normCat s = "other"
        · have hmem : "other" ∈ validated ++ [normCat s] := by
            simp [ho]
          rw [if_pos hmem] at hrec
          rw [hcount, if_pos ho] at hrec
          rw [← hlit, if_pos ho]
          by_cases hm : "other" ∈ validated <;> simp [hm] <;> omega
        · have hmem : ("other" ∈ validated ++ [normCat s])
              ↔ "other" ∈ validated := by
            constructor
            · intro hx
              rcases List.mem_append.mp hx with h1 | h1
              · exact h1
              · exact absurd (List.mem_singleton.mp h1).symm ho
            · intro hx
              exact List.mem_append.mpr (Or.inl hx)
          rw [hcount, if_neg ho] at hrec
          rw [← hlit, if_neg ho]
          by_cases hm : "other" ∈ validated
          · rw [if_pos (hmem.mpr hm)] at hrec
            rw [if_pos hm]
            omega
          · rw [if_neg (fun hx => hm (hmem.mp hx))] at hrec
            rw [if_neg hm]
            omega
      · rw [if_neg hvalid] at h
        have hrec := ih _ _ _ _ h
        have ho : normCat s ≠ "other" := by
          intro hx
          exact hvalid (by rw [hx]; simp [PROMPT_CATEGORY_VALUES])
        have hlit : (JValue.str s :: rest).countP isLiteralOther
            = rest.countP isLiteralOther := by
          rw [List.countP_cons]
          simp [isLiteralOther, beq_iff_eq, ho]
        rw [hlit]
        by_cases hm : "other" ∈ validated
        · rw [if_pos hm] at hrec ⊢
          rw [if_pos hm] at hrec
          omega
        · rw [if_neg hm] at hrec ⊢
          rw [if_pos (by simp : "other" ∈ validated ++ ["other"])] at hrec
          have : (validated ++ ["other"]).count "other"
              = validated.count "other" + 1 := by
            simp [List.count_append, List.count_cons]
          omega
    | null =>
      simp only [validateLoop] at h
      exact Except.noConfusion h
    | bool b =>
      simp only [validateLoop] at h
      exact Except.noConfusion h
    | num n =>
      simp only [validateLoop] at h
      exact Except.noConfusion h
    | arr xs =>
      simp only [validateLoop] at h
      exact Except.noConfusion h
    | obj kvs =>
      simp only [validateLoop] at h
      exact Except.noConfusion h

/-- CLAIM C8 (amended): the categories list of a validated classification
contains at most one occurrence of `"other"` more than the number of labels
in the service's (first three, normalized) label list that are literally
`"other"`; duplicates of the literal catch-all label are preserved, so
"at most one occurrence" holds only when the service does not itself repeat
`"other"`. -/
theorem validate_categories_other_count (categories custom : JValue)
    (cs : List JValue) (v : List String) (w : JValue)
    (hcs : catSeq categories = .ok cs)
    (h : validate_categories categories custom = .ok (v, w)) :
    v.count "other" ≤ cs.countP isLiteralOther + 1 := by
  cases hl : validateLoop cs [] custom with
  | error e =>
    simp only [validate_categories, hcs, hl] at h
    exact Except.noConfusion h
  | ok vw =>
    simp only [validate_categories, hcs, hl, Except.ok.injEq,
      Prod.mk.injEq] at h
    have hcount : vw.1.count "other" ≤ cs.countP isLiteralOther + 1 := by
      simpa using validateLoop_other_count cs [] custom vw.1 vw.2 (by rw [hl])
    by_cases h0 : vw.1 = []
    · rw [if_pos h0] at h
      rw [← h.1]
      simp
    · rw [if_neg h0] at h
      rw [← h.1]
      omega

theorem validate_categories_other_count_witness :
    catSeq (.arr [.str "other", .str "other"]) = .ok [.str "other", .str "other"]
    ∧ validate_categories (.arr [.str "other", .str "other"]) .null
      = .ok (["other", "other"], .null)
    ∧ List.count "other" ["other", "other"]
      ≤ ([(.str "other" : JValue), .str "other"]).countP isLiteralOther + 1 :=
  ⟨rfl, rfl,
   validate_categories_other_count (.arr [.str "other", .str "other"]) .null
     [.str "other", .str "other"] ["other", "other"] .null rfl rfl⟩

/-- CLAIM C8 (counterexample): the classifier produces a `ClassifiedPrompt`
whose categories list holds TWO occurrences of `"other"` when the external
service's label list is `["other", "other"]` — the dedup guard only covers
out-of-taxonomy labels, and `"other"` itself is in the taxonomy. -/
theorem classified_prompt_duplicate_other_cex :
    classifyBatchGroup [(⟨.str "p", 0, "S", 0⟩, [], [])]
      (.jsonVal (.arr [.obj [("index", .num 1),
        ("categories", .arr [.str "other", .str "other"]),
        ("custom_category", .null)]]))
      = .ok [⟨.str "p", 0, "S", ["other", "other"], [], [], .null⟩]
    ∧ ¬ List.count "other" ["other", "other"] ≤ 1 :=
  ⟨rfl, by decide⟩

/- ## Per-group failure handling (claim C6) -/

theorem parse_batch_response_defaults (resp : RawResponse) (n : Nat)
    (h : respUnparseableAsArray resp = true) :
    parse_batch_response resp n = (List.range n).map parseErrorEntry := by
  cases resp with
  | unparseable => rfl
  | jsonVal v =>
    cases v with
    | arr xs => exact absurd h (by simp [respUnparseableAsArray])
    | null => rfl
    | bool b => rfl
    | num m => rfl
    | str s => rfl
    | obj kvs => rfl

/-- Scanning the parse-error default entries for 1-based index `i + 1` finds
exactly the entry at position `i`. -/
theorem findByIndex_parseError :
    ∀ (cnt ofs i : Nat), ofs ≤ i → i < ofs + cnt →
      findByIndex ((List.range' ofs cnt).map parseErrorEntry) ((i : Int) + 1)
        = .ok (some (parseErrorEntry i)) := by
  intro cnt
  induction cnt with
  | zero =>
    intro ofs i h1 h2
    omega
  | succ c ih =>
    intro ofs i h1 h2
    rw [List.range'_succ, List.map_cons]
    show (if pyEqInt ((([("index", JValue.num ((ofs + 1 : Nat) : Int)),
        ("categories", .arr [.str "other"]),
        ("custom_category", .str "parse_error")] : List (String × JValue)).lookup
          "index").getD .null) ((i : Int) + 1) = true
      then Except.ok (some (parseErrorEntry ofs))
      else findByIndex ((List.range' (ofs + 1) c).map parseErrorEntry)
        ((i : Int) + 1)) = .ok (some (parseErrorEntry i))
    by_cases he : ofs = i
    · subst he
      rw [if_pos (by simp [pyEqInt])]
    · rw [if_neg (by simp [pyEqInt]; omega)]
      exact ih (ofs + 1) i (by omega) (by omega)

/-- Classifying a group against the parse-error default entries labels every
member `["other"]` with the `"parse_error"` marker. -/
theorem classifyGroupLoop_parse_error :
    ∀ (sub : List (ExtractedPrompt × List JValue × List JValue)) (i n : Nat),
      i + sub.length ≤ n →
      classifyGroupLoop ((List.range n).map parseErrorEntry) i sub
        = .ok (sub.map fun t =>
            ⟨t.1.prompt_text, t.1.timestamp, t.1.session_id, ["other"],
             t.2.1, t.2.2, .str "parse_error"⟩) := by
  intro sub
  induction sub with
  | nil =>
    intro i n h
    rfl
  | cons t rest ih =>
    intro i n h
    obtain ⟨p, cb, ca⟩ := t
    have hfind : findByIndex ((List.range n).map parseErrorEntry)
        ((i : Int) + 1) = .ok (some (parseErrorEntry i)) := by
      rw [List.range_eq_range']
      exact findByIndex_parseError n 0 i (Nat.zero_le _)
        (by simp only [Nat.zero_add, List.length_cons] at h ⊢; omega)
    have hcat : jGetD (parseErrorEntry i) "categories" (.arr [.str "other"])
        = .ok (.arr [.str "other"]) := rfl
    have hcust : jGetD (parseErrorEntry i) "custom_category" .null
        = .ok (.str "parse_error") := rfl
    have hval : validate_categories (.arr [.str "other"]) (.str "parse_error")
        = .ok (["other"], .str "parse_error") := rfl
    have hrest := ih (i + 1) n (by simp only [List.length_cons] at h; omega)
    simp only [classifyGroupLoop, hfind, pickResult, hcat, hcust, hval,
      hrest, List.map_cons]

/-- CLAIM C6 (amended): for every non-empty group, when the collaborator's
response is structurally unparseable as an array, the per-group
classification completes without raising, and every member receives exactly
the catch-all category `["other"]` with the `"parse_error"` marker as its
free-text label.  (The unamended claim — no response ever raises — is false:
a response that parses to a JSON ARRAY whose entries are not objects raises
an uncaught `AttributeError`, see the counterexample.) -/
theorem classify_group_parse_failure_fallback
    (group : List (ExtractedPrompt × List JValue × List JValue))
    (resp : RawResponse) (hne : group ≠ [])
    (hresp : respUnparseableAsArray resp = true) :
    classifyBatchGroup group resp
      = .ok (group.map fun t =>
          ⟨t.1.prompt_text, t.1.timestamp, t.1.session_id, ["other"],
           t.2.1, t.2.2, .str "parse_error"⟩) := by
  unfold classifyBatchGroup
  rw [if_neg (fun hh => hne (List.isEmpty_iff.mp hh))]
  rw [parse_batch_response_defaults resp group.length hresp]
  exact classifyGroupLoop_parse_error group 0 group.length (by omega)

theorem classify_group_parse_failure_fallback_witness :
    ([((⟨.str "p1", 0, "S", 0⟩ : ExtractedPrompt), ([] : List JValue),
        ([] : List JValue)),
      (⟨.str "p2", 1, "S", 1⟩, [], []), (⟨.str "p3", 2, "S", 2⟩, [], []),
      (⟨.str "p4", 3, "S", 3⟩, [], []), (⟨.str "p5", 4, "S", 4⟩, [], [])]
      ≠ [])
    ∧ respUnparseableAsArray .unparseable = true
    ∧ classifyBatchGroup
        [(⟨.str "p1", 0, "S", 0⟩, [], []), (⟨.str "p2", 1, "S", 1⟩, [], []),
         (⟨.str "p3", 2, "S", 2⟩, [], []), (⟨.str "p4", 3, "S", 3⟩, [], []),
         (⟨.str "p5", 4, "S", 4⟩, [], [])] .unparseable
      = .ok [⟨.str "p1", 0, "S", ["other"], [], [], .str "parse_error"⟩,
             ⟨.str "p2", 1, "S", ["other"], [], [], .str "parse_error"⟩,
             ⟨.str "p3", 2, "S", ["other"], [], [], .str "parse_error"⟩,
             ⟨.str "p4", 3, "S", ["other"], [], [], .str "parse_error"⟩,
             ⟨.str "p5", 4, "S", ["other"], [], [], .str "parse_error"⟩] :=
  ⟨by simp, rfl,
   classify_group_parse_failure_fallback _ .unparseable (by simp) rfl⟩

/-- CLAIM C6 (counterexample): a collaborator response that parses to the
JSON array `[1]` (an array of non-objects) makes the per-group
classification raise an uncaught `AttributeError` at `r.get("index")` — so
"for every raw collaborator response the group completes without raising"
is false. -/
theorem classify_group_non_object_entry_raises_cex :
    classifyBatchGroup [(⟨.str "p", 0, "S", 0⟩, [], [])]
      (.jsonVal (.arr [.num 1])) = .error .attribute_error := rfl

/- ## Batch order preservation (claim C2) -/

/-- Each group's output pairs off with the group's members in order. -/
theorem classifyGroupLoop_fields :
    ∀ (sub : List (ExtractedPrompt × List JValue × List JValue))
      (parsed : List JValue) (i : Nat) (res : List ClassifiedPrompt),
      classifyGroupLoop parsed i sub = .ok res →
      List.Forall₂ fieldsMatch res sub := by
  intro sub
  induction sub with
  | nil =>
    intro parsed i res h
    simp only [classifyGroupLoop, Except.ok.injEq] at h
    rw [← h]
    exact List.Forall₂.nil
  | cons t rest ih =>
    intro parsed i res h
    obtain ⟨p, cb, ca⟩ := t
    cases hf : findByIndex parsed ((i : Int) + 1) with
    | error e =>
      simp only [classifyGroupLoop, hf] at h
      exact Except.noConfusion h
    | ok found =>
      cases hc : jGetD (pickResult parsed i found) "categories"
          (.arr [.str "other"]) with
      | error e =>
        simp only [classifyGroupLoop, hf, hc] at h
        exact Except.noConfusion h
      | ok cats =>
        cases hu : jGetD (pickResult parsed i found) "custom_category"
            .null with
        | error e =>
          simp only [classifyGroupLoop, hf, hc, hu] at h
          exact Except.noConfusion h
        | ok cust =>
          cases hv : validate_categories cats cust with
          | error e =>
            simp only [classifyGroupLoop, hf, hc, hu, hv] at h
            exact Except.noConfusion h
          | ok vw =>
            cases hr : classifyGroupLoop parsed (i + 1) rest with
            | error e =>
              simp only [classifyGroupLoop, hf, hc, hu, hv, hr] at h
              exact Except.noConfusion h
            | ok restRes =>
              simp only [classifyGroupLoop, hf, hc, hu, hv, hr,
                Except.ok.injEq] at h
              rw [← h]
              exact List.Forall₂.cons ⟨rfl, rfl, rfl, rfl, rfl⟩
                (ih parsed (i + 1) restRes hr)

theorem classifyBatchGroup_fields
    (b : List (ExtractedPrompt × List JValue × List JValue))
    (resp' : RawResponse) (rs : List ClassifiedPrompt)
    (h : classifyBatchGroup b resp' = .ok rs) :
    List.Forall₂ fieldsMatch rs b := by
  unfold classifyBatchGroup at h
  by_cases hb : b.isEmpty
  · rw [if_pos hb] at h
    rw [List.isEmpty_iff.mp hb, ← Except.ok.inj h]
    exact List.Forall₂.nil
  · rw [if_neg hb] at h
    exact classifyGroupLoop_fields b _ 0 rs h

/-- The gather loop yields batch indices `i, i+1, ...` in task order, each
paired with its group's successful classification. -/
theorem gatherGo_ok :
    ∀ (batches : List (List (ExtractedPrompt × List JValue × List JValue)))
      (resp : Nat → RawResponse) (i : Nat)
      (xs : List (Nat × List ClassifiedPrompt)),
      gatherGo resp i batches = .ok xs →
      xs.map Prod.fst = List.range' i batches.length
      ∧ List.Forall₂ (fun ir b => classifyBatchGroup b (resp ir.1) = .ok ir.2)
          xs batches := by
  intro batches
  induction batches with
  | nil =>
    intro resp i xs h
    simp only [gatherGo, Except.ok.injEq] at h
    rw [← h]
    exact ⟨rfl, List.Forall₂.nil⟩
  | cons b rest ih =>
    intro resp i xs h
    cases hr : classifyBatchGroup b (resp i) with
    | error e =>
      simp only [gatherGo, hr] at h
      exact Except.noConfusion h
    | ok r =>
      cases hrs : gatherGo resp (i + 1) rest with
      | error e =>
        simp only [gatherGo, hr, hrs] at h
        exact Except.noConfusion h
      | ok rs =>
        simp only [gatherGo, hr, hrs, Except.ok.injEq] at h
        obtain ⟨hfst, hall⟩ := ih resp (i + 1) rs hrs
        rw [← h]
        constructor
        · simp only [List.map_cons, List.length_cons, List.range'_succ, hfst]
        · exact List.Forall₂.cons hr hall

/-- A list whose first components are consecutive naturals is sorted by
batch index with duplicate-free keys. -/
theorem sorted_of_fst_range' (xs : List (Nat × List ClassifiedPrompt))
    (i : Nat) (h : xs.map Prod.fst = List.range' i xs.length) :
    xs.Sorted idxLE ∧ (xs.map Prod.fst).Nodup := by
  have hpair : List.Pairwise (· < ·) (xs.map Prod.fst) := by
    rw [h]
    exact List.pairwise_lt_range' _ _
  constructor
  · exact (List.pairwise_map.mp hpair).imp (fun hlt => Nat.le_of_lt hlt)
  · exact hpair.nodup

theorem idxLE_antisymm_key (a b : Nat × List ClassifiedPrompt) :
    idxLE a b → idxLE b a → a.1 = b.1 := fun h1 h2 => Nat.le_antisymm h1 h2

/-- Sorting an index-sorted duplicate-free list is the identity, so the
merge step just flattens in batch order. -/
theorem mergeResults_sorted (xs : List (Nat × List ClassifiedPrompt))
    (hs : xs.Sorted idxLE) (hnd : (xs.map Prod.fst).Nodup) :
    mergeResults xs = xs.flatMap (·.2) := by
  unfold mergeResults
  rw [eq_of_perm_of_sorted_of_nodup_keys Prod.fst idxLE idxLE_antisymm_key
    (List.insertionSort idxLE xs) xs (List.perm_insertionSort _ _)
    (List.sorted_insertionSort _ _) hs
    (((List.perm_insertionSort idxLE xs).map Prod.fst).nodup_iff.mpr hnd)]

/-- Any permutation of the gathered results merges to the same output:
out-of-order completion cannot change the final list. -/
theorem mergeResults_perm (xs ys : List (Nat × List ClassifiedPrompt))
    (hperm : ys.Perm xs) (hnd : (xs.map Prod.fst).Nodup) :
    mergeResults ys = mergeResults xs := by
  unfold mergeResults
  rw [eq_of_perm_of_sorted_of_nodup_keys Prod.fst idxLE idxLE_antisymm_key
    (List.insertionSort idxLE ys) (List.insertionSort idxLE xs)
    ((List.perm_insertionSort _ _).trans
      (hperm.trans (List.perm_insertionSort idxLE xs).symm))
    (List.sorted_insertionSort _ _) (List.sorted_insertionSort _ _)
    (((List.perm_insertionSort idxLE ys).map Prod.fst).nodup_iff.mpr
      ((hperm.map Prod.fst).nodup_iff.mpr hnd))]

theorem chunksGo_flatten {α : Type} (k : Nat) (hk : 1 ≤ k) :
    ∀ (fuel : Nat) (l : List α), l.length ≤ fuel →
      (chunksGo k fuel l).flatten = l := by
  intro fuel
  induction fuel with
  | zero =>
    intro l h
    cases l with
    | nil => rfl
    | cons x xs => simp at h
  | succ f ih =>
    intro l h
    cases l with
    | nil => rfl
    | cons x xs =>
      simp only [chunksGo, List.flatten_cons]
      rw [ih ((x :: xs).drop k)
        (by simp only [List.length_drop, List.length_cons] at h ⊢; omega)]
      exact List.take_append_drop k (x :: xs)

theorem chunksOf_flatten {α : Type} (k : Nat) (hk : 1 ≤ k) (l : List α) :
    (chunksOf k l).flatten = l :=
  chunksGo_flatten k hk l.length l le_rfl

theorem forall2_append {α β : Type} {R : α → β → Prop} :
    ∀ {l₁ l₃ : List α} {l₂ l₄ : List β}, List.Forall₂ R l₁ l₂ →
      List.Forall₂ R l₃ l₄ → List.Forall₂ R (l₁ ++ l₃) (l₂ ++ l₄) := by
  intro l₁ l₃ l₂ l₄ h1 h2
  induction h1 with
  | nil => exact h2
  | cons hh _ ih => exact List.Forall₂.cons hh ih

theorem forall2_flatten {α β : Type} {R : α → β → Prop} :
    ∀ {xss : List (List α)} {yss : List (List β)},
      List.Forall₂ (List.Forall₂ R) xss yss →
      List.Forall₂ R xss.flatten yss.flatten := by
  intro xss yss h
  induction h with
  | nil => exact List.Forall₂.nil
  | cons hh _ ih =>
    simp only [List.flatten_cons]
    exact forall2_append hh ih

/-- CLAIM C2: whenever `classify_batch` returns a list, it has exactly the
input's length and its i-th element is the classification of the i-th input
prompt (it carries that prompt's text, timestamp, session and context);
moreover the sort-by-batch-index merge produces this same list from EVERY
permutation of the gathered `(batch_index, results)` pairs, so out-of-order
group completion cannot reorder the output, and a group whose response
failed to parse still contributes fallback classifications in place. -/
theorem classify_batch_preserves_order
    (inputs : List (ExtractedPrompt × List JValue × List JValue))
    (resp : Nat → RawResponse) (l : List ClassifiedPrompt)
    (h : classify_batch inputs resp = .ok l) :
    l.length = inputs.length
    ∧ List.Forall₂ fieldsMatch l inputs
    ∧ ∀ xs ys,
        gatherGroups (chunksOf SEMANTIC_BATCH_SIZE inputs) resp = .ok xs →
        ys.Perm xs → mergeResults ys = l := by
  by_cases hz : inputs.length = 0
  · have hinputs : inputs = [] := List.length_eq_zero.mp hz
    subst hinputs
    have hl : ([] : List ClassifiedPrompt) = l := Except.ok.inj h
    rw [← hl]
    refine ⟨rfl, List.Forall₂.nil, ?_⟩
    intro xs ys hxs hys
    have hxs' : ([] : List (Nat × List ClassifiedPrompt)) = xs :=
      Except.ok.inj hxs
    rw [← hxs'] at hys
    rw [hys.eq_nil]
    rfl
  · unfold classify_batch at h
    rw [if_neg hz] at h
    cases hxs0 : gatherGroups (chunksOf SEMANTIC_BATCH_SIZE inputs) resp with
    | error e =>
      simp only [hxs0] at h
      exact Except.noConfusion h
    | ok xs0 =>
      simp only [hxs0, Except.ok.injEq] at h
      obtain ⟨hfst, hall⟩ := gatherGo_ok _ resp 0 xs0 hxs0
      have hlen2 : xs0.length = (chunksOf SEMANTIC_BATCH_SIZE inputs).length :=
        hall.length_eq
      obtain ⟨hsorted, hnd⟩ := sorted_of_fst_range' xs0 0 (by rw [hfst, hlen2])
      have hflat : (chunksOf SEMANTIC_BATCH_SIZE inputs).flatten = inputs :=
        chunksOf_flatten _ (by decide) inputs
      have hmerge : mergeResults xs0 = xs0.flatMap (·.2) :=
        mergeResults_sorted xs0 hsorted hnd
      have hgroups : List.Forall₂ (List.Forall₂ fieldsMatch)
          (xs0.map (·.2)) (chunksOf SEMANTIC_BATCH_SIZE inputs) := by
        rw [List.forall₂_map_left_iff]
        exact hall.imp (fun ir b hok =>
          classifyBatchGroup_fields b (resp ir.1) ir.2 hok)
      have hfm : List.Forall₂ fieldsMatch l inputs := by
        rw [← h, hmerge, List.flatMap_def, ← hflat]
        exact forall2_flatten hgroups
      refine ⟨hfm.length_eq, hfm, ?_⟩
      intro xs ys hxs hys
      have hxx : xs0 = xs := Except.ok.inj hxs
      rw [← hxx] at hys
      rw [mergeResults_perm xs0 ys hys hnd, h]

theorem classify_batch_preserves_order_witness :
    classify_batch [(⟨.str "p", 0, "S", 0⟩, [], [])] (fun _ => .unparseable)
      = .ok [⟨.str "p", 0, "S", ["other"], [], [], .str "parse_error"⟩]
    ∧ ([(⟨.str "p", 0, "S", ["other"], [], [], .str "parse_error"⟩ :
          ClassifiedPrompt)]).length
      = ([((⟨.str "p", 0, "S", 0⟩ : ExtractedPrompt), ([] : List JValue),
          ([] : List JValue))]).length :=
  ⟨rfl, (classify_batch_preserves_order
    [(⟨.str "p", 0, "S", 0⟩, [], [])] (fun _ => .unparseable)
    [⟨.str "p", 0, "S", ["other"], [], [], .str "parse_error"⟩] rfl).1⟩

/- ## Context windows (claim C9) -/

/-- In a timestamp-sorted list with pairwise-distinct timestamps, the first
position whose timestamp equals `t` (present in the list) is the number of
strictly smaller timestamps. -/
theorem findIdx_eq_countP_of_sorted_distinct :
    ∀ (l : List ExtractedPrompt) (t : Int),
      l.Sorted tsLE → l.Pairwise (fun p q => p.timestamp ≠ q.timestamp) →
      (∃ p ∈ l, p.timestamp = t) →
      l.findIdx (fun p => p.timestamp == t)
        = l.countP (fun p => decide (p.timestamp < t)) := by
  intro l
  induction l with
  | nil =>
    intro t _ _ hex
    obtain ⟨p, hp, _⟩ := hex
    exact absurd hp (List.not_mem_nil p)
  | cons a tl ih =>
    intro t hs hd hex
    rw [List.findIdx_cons, List.countP_cons]
    by_cases ha : a.timestamp = t
    · have hpa : (a.timestamp == t) = true := by simp [ha]
      rw [hpa]
      have htl : tl.countP (fun p => decide (p.timestamp < t)) = 0 := by
        rw [List.countP_eq_zero]
        intro q hq
        have h1 : a.timestamp ≤ q.timestamp := List.rel_of_sorted_cons hs q hq
        have h2 : a.timestamp ≠ q.timestamp := (List.pairwise_cons.mp hd).1 q hq
        simp only [decide_eq_true_eq]
        omega
      rw [htl]
      simp [ha]
    · obtain ⟨p, hp, hpt⟩ := hex
      have hptl : p ∈ tl := by
        rcases List.mem_cons.mp hp with h1 | h1
        · exact absurd (h1 ▸ hpt) ha
        · exact h1
      have hat : a.timestamp < t := by
        have h1 : a.timestamp ≤ p.timestamp := List.rel_of_sorted_cons hs p hptl
        omega
      have hpa : (a.timestamp == t) = false := by simp [ha]
      rw [hpa]
      have hrec := ih t hs.of_cons (List.pairwise_cons.mp hd).2 ⟨p, hptl, hpt⟩
      simp only [cond_false, hrec, decide_eq_true_eq, if_pos hat]

/-- The session list inherits distinct timestamps from the cross-session
hypothesis: all its members share the session id. -/
theorem sessionList_pairwise_ts (prompts : List ExtractedPrompt) (sid : String)
    (hd : prompts.Pairwise fun p q =>
      p.session_id = q.session_id → p.timestamp ≠ q.timestamp) :
    (sessionList prompts sid).Pairwise
      fun p q => p.timestamp ≠ q.timestamp := by
  have h1 := hd.filter (fun p => decide (p.session_id = sid))
  have h2 : ∀ x ∈ prompts.filter (fun p => decide (p.session_id = sid)),
      x.session_id = sid := by
    intro x hx
    simpa using List.of_mem_filter hx
  have h3 : (prompts.filter (fun p => decide (p.session_id = sid))).Pairwise
      (fun p q => p.timestamp ≠ q.timestamp) :=
    h1.imp_of_mem (fun ha hb hR => hR ((h2 _ ha).trans (h2 _ hb).symm))
  exact ((List.perm_insertionSort tsLE _).pairwise_iff
    (fun hne => Ne.symm hne)).mpr h3

theorem mem_sessionList_self (prompts : List ExtractedPrompt)
    (prompt : ExtractedPrompt) (hmem : prompt ∈ prompts) :
    prompt ∈ sessionList prompts prompt.session_id := by
  rw [sessionList, List.mem_insertionSort]
  exact List.mem_filter.mpr ⟨hmem, by simp⟩

/-- CLAIM C9 (amended): when no two prompts of the same session share a
timestamp, `add_context_to_prompts` returns one tuple per prompt in input
order, whose contexts are exactly the up-to-`w` texts on each side of the
prompt's own position in its session's timestamp-sorted sequence — drawn
from that same-session sequence only.  (As stated, the claim fails for
duplicate in-session timestamps: the position lookup matches by timestamp
only and can pick the wrong prompt's position, see the counterexample.) -/
theorem add_context_correct_of_distinct_ts
    (prompts : List ExtractedPrompt) (w : Nat)
    (hd : prompts.Pairwise fun p q =>
      p.session_id = q.session_id → p.timestamp ≠ q.timestamp) :
    add_context_to_prompts prompts w = prompts.map (contextSpec prompts w) := by
  unfold add_context_to_prompts
  apply List.map_congr_left
  intro prompt hmem
  have hfind : (sessionList prompts prompt.session_id).findIdx
      (fun p => p.timestamp == prompt.timestamp)
      = (sessionList prompts prompt.session_id).countP
          (fun p => decide (p.timestamp < prompt.timestamp)) :=
    findIdx_eq_countP_of_sorted_distinct _ _
      (List.sorted_insertionSort _ _)
      (sessionList_pairwise_ts prompts _ hd)
      ⟨prompt, mem_sessionList_self prompts prompt hmem, rfl⟩
  simp only [contextSpec, hfind]

theorem add_context_correct_of_distinct_ts_witness :
    ([(⟨.str "a", 1, "S", 0⟩ : ExtractedPrompt),
      ⟨.str "b", 2, "S", 1⟩]).Pairwise
      (fun p q => p.session_id = q.session_id → p.timestamp ≠ q.timestamp)
    ∧ add_context_to_prompts
        [⟨.str "a", 1, "S", 0⟩, ⟨.str "b", 2, "S", 1⟩] 1
      = ([(⟨.str "a", 1, "S", 0⟩ : ExtractedPrompt),
          ⟨.str "b", 2, "S", 1⟩]).map
          (contextSpec [⟨.str "a", 1, "S", 0⟩, ⟨.str "b", 2, "S", 1⟩] 1) :=
  ⟨by decide, add_context_correct_of_distinct_ts _ 1 (by decide)⟩

/-- CLAIM C9 (counterexample): two same-session prompts with the SAME
timestamp: the second prompt's tuple gets `context_before = []` (it should
be `["a"]`, the text of the prompt immediately preceding it) and
`context_after = ["b"]` — its own text — because the position lookup by
timestamp finds the first prompt's position. -/
theorem add_context_duplicate_ts_cex :
    add_context_to_prompts
      [⟨.str "a", 1, "S", 0⟩, ⟨.str "b", 1, "S", 1⟩] 1
      = [(⟨.str "a", 1, "S", 0⟩, [], [.str "b"]),
         (⟨.str "b", 1, "S", 1⟩, [], [.str "b"])]
    ∧ ([] : List JValue) ≠ [.str "a"] ∧ [(.str "b" : JValue)] ≠ [] :=
  ⟨rfl, by simp, by simp⟩
